import Mathlib

/-!
Verification of the plugin event kernel of the shirk IRC bot
(src/shirk.py) against its natural-language specification.

The kernel state (active plug dictionary `self.plugs`, hook tables
`self.hooks`) is embedded shallowly: Python dicts become association
lists with Python dict semantics (assignment overwrites in place or
appends, `del` removes the key), Python sets of plugs become
duplicate-free lists with `add`/`discard` modelled exactly, and plug
instances are numbered by a fresh-instance counter since
`module.Plug(...)` creates a new object on every load.
-/

namespace Shirk

/-- The simple event categories of `Shirk._simple_events`
(util.Event members addressed, chanmsg, private, userjoined,
usercreated, userremoved). -/
inductive SEvent where
  | addressed
  | chanmsg
  | priv
  | userjoined
  | usercreated
  | userremoved
deriving DecidableEq, Fintype

/-- Plug instances are identified by the order of instantiation:
`module.Plug(self, self.startingup)` creates a fresh object each time. -/
abbrev PlugId := Nat

/-- The interests a plug module declares (`hooks`, `commands`,
`rawhooks` class attributes, as in plugs/Auth/auth.py and
plugs/Core/core.py). -/
structure PlugSpec where
  sevents : List SEvent
  commands : List String
  rawcodes : List String
deriving DecidableEq

/-- Python `set.add`: no-op when the element is present, otherwise
the element joins the set. -/
def pyAdd (x : PlugId) (l : List PlugId) : List PlugId :=
  if x ∈ l then l else l ++ [x]

/-- Python `set.discard`: removes the element when present, never
raises. -/
def pyDiscard (x : PlugId) (l : List PlugId) : List PlugId :=
  l.filter (fun y => y ≠ x)

/-- Python dict lookup `d[k]` / `k in d`, as an association list scan. -/
def alGet {α β : Type} [DecidableEq α] (k : α) : List (α × β) → Option β
  | [] => none
  | (k1, v) :: t => if k = k1 then some v else alGet k t

/-- Python dict assignment `d[k] = v`: overwrites in place when the key
exists, appends otherwise. -/
def alSet {α β : Type} [DecidableEq α] (k : α) (v : β) :
    List (α × β) → List (α × β)
  | [] => [(k, v)]
  | (k1, v1) :: t => if k = k1 then (k, v) :: t else (k1, v1) :: alSet k v t

/-- Python `del d[k]`. -/
def alDel {α β : Type} [DecidableEq α] (k : α) (l : List (α × β)) :
    List (α × β) :=
  l.filter (fun e => e.1 ≠ k)

/-- The six per-category subscriber sets held in `self.hooks` under the
simple-event keys. -/
structure SimpleHooks where
  addressed : List PlugId
  chanmsg : List PlugId
  priv : List PlugId
  userjoined : List PlugId
  usercreated : List PlugId
  userremoved : List PlugId
deriving DecidableEq

def SimpleHooks.get (h : SimpleHooks) : SEvent → List PlugId
  | .addressed => h.addressed
  | .chanmsg => h.chanmsg
  | .priv => h.priv
  | .userjoined => h.userjoined
  | .usercreated => h.usercreated
  | .userremoved => h.userremoved

def SimpleHooks.upd (h : SimpleHooks) (e : SEvent)
    (f : List PlugId → List PlugId) : SimpleHooks :=
  match e with
  | .addressed => { h with addressed := f h.addressed }
  | .chanmsg => { h with chanmsg := f h.chanmsg }
  | .priv => { h with priv := f h.priv }
  | .userjoined => { h with userjoined := f h.userjoined }
  | .usercreated => { h with usercreated := f h.usercreated }
  | .userremoved => { h with userremoved := f h.userremoved }

/-- Applies one function to all six subscriber sets (the
`for ev in self._simple_events: self.hooks[ev].discard(plug)` loop). -/
def SimpleHooks.mapAll (h : SimpleHooks) (f : List PlugId → List PlugId) :
    SimpleHooks :=
  ⟨f h.addressed, f h.chanmsg, f h.priv, f h.userjoined,
   f h.usercreated, f h.userremoved⟩

/-- Exceptions observable in the embedded kernel. -/
inductive Err where
  | keyError
  | indexError
  | runtimeError
  | cleanupError
  | handlerFault (code : Nat)
deriving DecidableEq

/-- Kernel state: the active plug dictionary `self.plugs`, the hook
tables in `self.hooks` (command dict, raw dict, six simple-event sets),
the fresh-instance counter, a ghost map from instance to the interests
it was loaded with, a log of cleanup invocations, and the factory
shutdown flag. -/
structure St where
  plugs : List (String × PlugId)
  cmdHooks : List (String × List PlugId)
  rawHooks : List (String × List PlugId)
  sHooks : SimpleHooks
  specs : List (PlugId × PlugSpec)
  nextId : PlugId
  cleanLog : List PlugId
  shuttingdown : Bool
deriving DecidableEq

/-- The state of a freshly constructed kernel after `load_plugs` reset
the tables and before any plug was loaded. -/
def initSt : St :=
  ⟨[], [], [], ⟨[], [], [], [], [], []⟩, [], 0, [], false⟩

/-- Environment for behaviour the kernel does not control: whether a
given plug instance raises from its `cleanup` method. -/
structure Env where
  cleanupFails : PlugId → Bool

/-- Dict-of-sets insertion shared by `add_command` and `add_raw`:
`if k not in d: d[k] = set()` followed by `d[k].add(p)`. -/
def alBump {α : Type} [DecidableEq α] (k : α) (p : PlugId)
    (l : List (α × List PlugId)) : List (α × List PlugId) :=
  match alGet k l with
  | none => l ++ [(k, pyAdd p [])]
  | some v => alSet k (pyAdd p v) l

/-- `Shirk.add_command` (src/shirk.py lines 348-359). -/
def add_command (cmd : String) (p : PlugId) (s : St) : St :=
  { s with cmdHooks := alBump cmd p s.cmdHooks }

/-- `Shirk.add_raw` (src/shirk.py lines 382-395). -/
def add_raw (code : String) (p : PlugId) (s : St) : St :=
  { s with rawHooks := alBump code p s.rawHooks }

/-- Keys that may be passed to `add_callback`: either one of the simple
event constants that are keys of `self.hooks`, or any other value
(modelling an unknown category, which is not a key of the dict). -/
inductive EKey where
  | simple (e : SEvent)
  | other (tag : Nat)
deriving DecidableEq

/-- `Shirk.add_callback` (src/shirk.py lines 361-380): returns False
without touching the tables when the event is not a key of
`self.hooks`, otherwise adds the plug and returns True. -/
def add_callback (k : EKey) (p : PlugId) (s : St) : Bool × St :=
  match k with
  | .simple e => (true, { s with sHooks := s.sHooks.upd e (pyAdd p) })
  | .other _ => (false, s)

/-- Modelled from the spec: `plugbase.Plug.hook_events` is code of this
repository that is not under src/. Per the spec, loading "invokes its
hook-registration step (which calls into the Hook Registry)" and a plug
"declares ... lists of category-interests, command names, and raw
codes it wants"; so the registration step registers every declared
interest through the three registration operations of src/shirk.py. -/
def hook_events (sp : PlugSpec) (p : PlugId) (s : St) : St :=
  let s1 := sp.sevents.foldl (fun acc e => (add_callback (.simple e) p acc).2) s
  let s2 := sp.commands.foldl (fun acc c => add_command c p acc) s1
  sp.rawcodes.foldl (fun acc c => add_raw c p acc) s2

/-- `Shirk.load_plug` (src/shirk.py lines 56-68): instantiates a fresh
plug object, assigns it into `self.plugs[plugname]` (overwriting any
previous entry), then calls `hook_events`.  The module resolution is
represented by the caller supplying the `PlugSpec` the module declares;
the ghost `specs` field records which interests the instance declared. -/
def load_plug (name : String) (sp : PlugSpec) (s : St) : St :=
  let p := s.nextId
  let s1 := { s with
    plugs := alSet name p s.plugs
    specs := s.specs ++ [(p, sp)]
    nextId := p + 1 }
  hook_events sp p s1

/-- The de-registration half of `remove_plug`: the plug is discarded
from every command entry, every raw entry and every simple-event set,
and deleted from `self.plugs`. -/
def removedSt (name : String) (p : PlugId) (s : St) : St :=
  { s with
      cmdHooks := s.cmdHooks.map (fun e => (e.1, pyDiscard p e.2))
      rawHooks := s.rawHooks.map (fun e => (e.1, pyDiscard p e.2))
      sHooks := s.sHooks.mapAll (pyDiscard p)
      plugs := alDel name s.plugs }

/-- `Shirk.remove_plug` (src/shirk.py lines 70-85): `self.plugs[plugname]`
raises KeyError when absent (before any mutation); then `plug.cleanup()`
runs (bare call: an exception propagates and aborts the removal); then
the plug is unregistered everywhere and deleted from `self.plugs`. -/
def remove_plug (env : Env) (name : String) (s : St) : St × Option Err :=
  match alGet name s.plugs with
  | none => (s, some Err.keyError)
  | some p =>
    let s1 := { s with cleanLog := s.cleanLog ++ [p] }
    if env.cleanupFails p then
      (s1, some Err.cleanupError)
    else
      (removedSt name p s1, none)

/-- One cleanup loop `for name, plug in self.plugs.iteritems():
plug.cleanup()`: each call is bare, so a raising cleanup aborts the
loop and the exception propagates. -/
def runCleanups (env : Env) : List PlugId → St → St × Option Err
  | [], s => (s, none)
  | p :: rest, s =>
    let s1 := { s with cleanLog := s.cleanLog ++ [p] }
    if env.cleanupFails p then (s1, some Err.cleanupError)
    else runCleanups env rest s1

/-- `Shirk.shutdown` (src/shirk.py lines 87-97): cleans up every active
plug, sets `self.factory.shuttingdown = True`, and quits.  The active
plug dictionary is not cleared. -/
def shutdown (env : Env) (s : St) : St × Option Err :=
  match runCleanups env (s.plugs.map Prod.snd) s with
  | (s1, some e) => (s1, some e)
  | (s1, none) => ({ s1 with shuttingdown := true }, none)

/-- `Shirk.connectionLost` (src/shirk.py lines 131-150): runs
`plug.cleanup()` over every entry still in `self.plugs` (the
`except AttributeError` there only covers the never-connected case,
not cleanup failures). -/
def connectionLost (env : Env) (s : St) : St × Option Err :=
  runCleanups env (s.plugs.map Prod.snd) s

/-!  Dispatch.  A handler is arbitrary plug code: it may mutate the
kernel state (load, remove, reload plugs) and may raise.  It is embedded
as a function returning the new state and an optional raised exception.
-/

/-- The behaviour of one plug handler call: resulting kernel state and
the exception it raised, if any. -/
abbrev Handler := PlugId → St → St × Option Err

/-- The invocations and outcome of one dispatch: final state, the
handlers invoked with the argv each was passed, and the exception that
propagated out of the dispatch call, if any. -/
structure DRes where
  st : St
  log : List (PlugId × List String)
  err : Option Err
deriving DecidableEq

/-- Iteration over a snapshot copy (`to_call = set(...)` followed by
`for plug in to_call: plug.handle_command(source, target, argv)`).
No exception handling: a raising handler aborts the loop and the
exception propagates. -/
def runSnap (h : Handler) (argv : List String) :
    List PlugId → St → DRes
  | [], s => ⟨s, [], none⟩
  | p :: rest, s =>
    match h p s with
    | (s1, some e) => ⟨s1, [(p, argv)], some e⟩
    | (s1, none) =>
      let r := runSnap h argv rest s1
      ⟨r.st, (p, argv) :: r.log, r.err⟩

/-- `Shirk.event_command` (src/shirk.py lines 273-286): evaluates
`argv[0]` (IndexError on an empty list), skips silently when the
command is not a key of the table, and otherwise iterates a copy of
the subscriber set. -/
def event_command (h : Handler) (argv : List String) (s : St) : DRes :=
  match argv with
  | [] => ⟨s, [], some Err.indexError⟩
  | a0 :: _ =>
    match alGet a0 s.cmdHooks with
    | none => ⟨s, [], none⟩
    | some l => runSnap h argv l s

/-- `Shirk.event_raw` (src/shirk.py lines 299-313): same snapshot
pattern as `event_command`, keyed by the raw code. -/
def event_raw (h : Handler) (code : String) (s : St) : DRes :=
  match alGet code s.rawHooks with
  | none => ⟨s, [], none⟩
  | some l => runSnap h [code] l s

/-- Outcome of one simple-event dispatch. -/
structure CRes where
  st : St
  log : List PlugId
  err : Option Err
deriving DecidableEq

/-- CPython set-iterator semantics for
`for plug in self.hooks[Event.chanmsg]: plug.handle_chanmsg(...)`:
the iterator records the set size at creation and every `next()` call
(including the final one that would report exhaustion) first raises
RuntimeError when the live size differs from the recorded one. -/
def iterLive (h : Handler) (n0 : Nat) :
    List PlugId → St → CRes
  | [], s =>
    if (s.sHooks.chanmsg).length = n0 then ⟨s, [], none⟩
    else ⟨s, [], some Err.runtimeError⟩
  | p :: rest, s =>
    if (s.sHooks.chanmsg).length = n0 then
      match h p s with
      | (s1, some e) => ⟨s1, [p], some e⟩
      | (s1, none) =>
        let r := iterLive h n0 rest s1
        ⟨r.st, p :: r.log, r.err⟩
    else ⟨s, [], some Err.runtimeError⟩

/-- `Shirk.event_chanmsg` (src/shirk.py lines 261-271): iterates the
live subscriber set with no snapshot copy. -/
def event_chanmsg (h : Handler) (s : St) : CRes :=
  iterLive h (s.sHooks.chanmsg).length s.sHooks.chanmsg s

/-!  The command-recognition path of `Shirk.privmsg`
(src/shirk.py lines 185-201), modelled on `List Char`. -/

/-- Python whitespace for `str.strip()` and `str.split()` (ASCII part). -/
def pyIsSpace (c : Char) : Bool :=
  c = ' ' || c = '\t' || c = '\n' || c = '\r' || c = '\x0b' || c = '\x0c'

/-- Python `str.strip()`. -/
def pyStrip (l : List Char) : List Char :=
  ((l.dropWhile pyIsSpace).reverse.dropWhile pyIsSpace).reverse

/-- Accumulator pass of Python `str.split()` with no separator
argument: whitespace runs delimit tokens, empty tokens never occur. -/
def pySplitAux : List Char → List Char → List (List Char)
  | [], acc => if acc.isEmpty then [] else [acc.reverse]
  | c :: rest, acc =>
    if pyIsSpace c then
      if acc.isEmpty then pySplitAux rest []
      else acc.reverse :: pySplitAux rest []
    else pySplitAux rest (c :: acc)

/-- Python `str.split()` with no arguments. -/
def pySplit (l : List Char) : List (List Char) := pySplitAux l []

/-- The command branch of `Shirk.privmsg`: after `msg = msg.strip()`,
when `msg.startswith(self.cmd_prefix) and len(msg) > 1` the bot fires
`event_command` with `argv = msg[len(self.cmd_prefix):].split()`.
Returns the argv when the command event fires, `none` otherwise. -/
def privmsgCommand (cp msgRaw : List Char) : Option (List (List Char)) :=
  if cp.isPrefixOf (pyStrip msgRaw) then
    if 1 < (pyStrip msgRaw).length then
      some (pySplit ((pyStrip msgRaw).drop cp.length))
    else none
  else none

/-!  Operation sequences over the lifecycle manager, for the registry
invariant. -/

/-- A lifecycle operation: `load_plug` of a resolvable module declaring
the given interests, or `remove_plug`. -/
inductive Op where
  | load (name : String) (sp : PlugSpec)
  | remove (name : String)

def applyOp (env : Env) (s : St) : Op → St
  | .load n sp => load_plug n sp s
  | .remove n => (remove_plug env n s).1

/-- Runs a sequence of lifecycle operations. -/
def run (env : Env) (ops : List Op) (s : St) : St :=
  ops.foldl (applyOp env) s

/-- A sequence is load-fresh when every load in it targets a name that
is not active at that point (the discipline the spec prescribes:
"Load fails if the name is already present unless preceded by an
explicit remove"). -/
def legalSeq (env : Env) : List Op → St → Bool
  | [], _ => true
  | o :: rest, s =>
    (match o with
     | .load n _ => (alGet n s.plugs).isNone
     | .remove _ => true)
    && legalSeq env rest (applyOp env s o)

/-- The plug instance appears in some entry of the hook tables. -/
def inHooks (p : PlugId) (s : St) : Prop :=
  (∃ e ∈ s.cmdHooks, p ∈ e.2) ∨ (∃ e ∈ s.rawHooks, p ∈ e.2) ∨
  (∃ ev : SEvent, p ∈ s.sHooks.get ev)

instance (p : PlugId) (s : St) : Decidable (inHooks p s) := by
  unfold inHooks; infer_instance

/-- The instances currently reachable from the active plug dictionary. -/
def activeIds (s : St) : List PlugId := s.plugs.map Prod.snd

/-- The instance is subscribed in the tables to every interest of the
given declaration. -/
def registered (p : PlugId) (sp : PlugSpec) (s : St) : Prop :=
  (∀ e ∈ sp.sevents, p ∈ s.sHooks.get e) ∧
  (∀ c ∈ sp.commands, ∃ l, alGet c s.cmdHooks = some l ∧ p ∈ l) ∧
  (∀ c ∈ sp.rawcodes, ∃ l, alGet c s.rawHooks = some l ∧ p ∈ l)

/-- The kernel invariant maintained by load-fresh sequences: plug names
and instances are duplicate-free, instance numbers are below the
counter, every instance reachable from a hook table is active under
some name, and every active instance is subscribed to everything its
module declared. -/
structure Kinv (s : St) : Prop where
  keysND : (s.plugs.map Prod.fst).Nodup
  valsND : (s.plugs.map Prod.snd).Nodup
  valsLt : ∀ q ∈ s.plugs, q.2 < s.nextId
  specKeysLt : ∀ q ∈ s.specs, q.1 < s.nextId
  fwd : ∀ p, inHooks p s → ∃ n, alGet n s.plugs = some p
  specTotal : ∀ n p, alGet n s.plugs = some p →
    ∃ sp, alGet p s.specs = some sp
  conv : ∀ n p, alGet n s.plugs = some p →
    ∀ sp, alGet p s.specs = some sp → registered p sp s

/-!  Concrete fixtures used by counterexamples and witnesses. -/

/-- An environment where no cleanup raises. -/
def envOk : Env := ⟨fun _ => false⟩

/-- An environment where every cleanup raises. -/
def envBad : Env := ⟨fun _ => true⟩

/-- A plug declaration subscribing to the channel-message category
only. -/
def spChan : PlugSpec := ⟨[SEvent.chanmsg], [], []⟩

/-- A plug declaration subscribing to the command "ping" only. -/
def spPing : PlugSpec := ⟨[], ["ping"], []⟩

/-- The kernel after loading one chanmsg-subscribed plug named A
(instance 0). -/
def stChanA : St := load_plug "A" spChan initSt

/-- The kernel after loading one ping-subscribed plug named A
(instance 0). -/
def stPingA : St := load_plug "A" spPing initSt

/-- The kernel after loading the same name twice without a remove in
between (instances 0 then 1). -/
def stTwice : St := load_plug "A" spChan (load_plug "A" spChan initSt)

/-- A handler that removes plug A from inside a dispatch (as the Core
plug reload command does), swallowing no state: the removal succeeds
so the handler itself raises nothing. -/
def hRemoveA : Handler := fun _ s => ((remove_plug envOk "A" s).1, none)

/-- A handler that raises from instance 0 and returns normally from
every other instance. -/
def hBoom : Handler := fun p s =>
  if p = 0 then (s, some (Err.handlerFault 7)) else (s, none)

/-- The kernel with two plugs A (instance 0) and B (instance 1) both
subscribed to the command "x". -/
def stTwoCmd : St :=
  load_plug "B" ⟨[], ["x"], []⟩ (load_plug "A" ⟨[], ["x"], []⟩ initSt)

/-!  Lemmas about the Python container embeddings. -/

theorem pyAdd_mem_self (x : PlugId) (l : List PlugId) : x ∈ pyAdd x l := by
  unfold pyAdd; split
  · assumption
  · exact List.mem_append_right l (List.mem_singleton.mpr rfl)

theorem pyAdd_mem_mono {y : PlugId} (x : PlugId) {l : List PlugId}
    (h : y ∈ l) : y ∈ pyAdd x l := by
  unfold pyAdd; split
  · exact h
  · exact List.mem_append_left _ h

theorem pyAdd_mem_elim {y x : PlugId} {l : List PlugId}
    (h : y ∈ pyAdd x l) : y = x ∨ y ∈ l := by
  unfold pyAdd at h; split at h
  · exact Or.inr h
  · rcases List.mem_append.mp h with h1 | h1
    · exact Or.inr h1
    · exact Or.inl (List.mem_singleton.mp h1)

theorem pyAdd_idem (x : PlugId) (l : List PlugId) :
    pyAdd x (pyAdd x l) = pyAdd x l := by
  unfold pyAdd
  by_cases hl : x ∈ l <;> simp [hl]

theorem pyDiscard_mem {y x : PlugId} {l : List PlugId} :
    y ∈ pyDiscard x l ↔ y ∈ l ∧ y ≠ x := by
  unfold pyDiscard
  simp [List.mem_filter]

section AList

variable {α β : Type} [DecidableEq α]

theorem alGet_eq_none_iff {k : α} {l : List (α × β)} :
    alGet k l = none ↔ k ∉ l.map Prod.fst := by
  induction l with
  | nil => simp [alGet]
  | cons e t ih =>
    obtain ⟨k1, v⟩ := e
    by_cases hk : k = k1
    · subst hk; simp [alGet]
    · simp [alGet, hk, ih]

theorem alGet_mem {k : α} {v : β} {l : List (α × β)}
    (h : alGet k l = some v) : (k, v) ∈ l := by
  induction l with
  | nil => simp [alGet] at h
  | cons e t ih =>
    obtain ⟨k1, v1⟩ := e
    by_cases hk : k = k1
    · subst hk
      simp [alGet] at h
      simp [h]
    · simp [alGet, hk] at h
      exact List.mem_cons_of_mem _ (ih h)

theorem alGet_alSet_self (k : α) (v : β) (l : List (α × β)) :
    alGet k (alSet k v l) = some v := by
  induction l with
  | nil => simp [alSet, alGet]
  | cons e t ih =>
    obtain ⟨k1, v1⟩ := e
    by_cases hk : k = k1
    · subst hk; simp [alSet, alGet]
    · simp [alSet, alGet, hk, ih]

theorem alGet_alSet_ne {k k1 : α} (hk : k ≠ k1) (v : β) (l : List (α × β)) :
    alGet k (alSet k1 v l) = alGet k l := by
  induction l with
  | nil => simp [alSet, alGet, hk]
  | cons e t ih =>
    obtain ⟨k2, v2⟩ := e
    by_cases h2 : k1 = k2
    · subst h2; simp [alSet, alGet, hk]
    · by_cases h3 : k = k2
      · subst h3; simp [alSet, alGet, h2, Ne.symm hk]
      · simp [alSet, alGet, h2, h3, ih]

theorem alSet_fresh {k : α} (v : β) {l : List (α × β)}
    (h : alGet k l = none) : alSet k v l = l ++ [(k, v)] := by
  induction l with
  | nil => simp [alSet]
  | cons e t ih =>
    obtain ⟨k1, v1⟩ := e
    by_cases hk : k = k1
    · subst hk; simp [alGet] at h
    · simp [alGet, hk] at h
      simp [alSet, hk, ih h]

theorem alSet_same {k : α} {v : β} {l : List (α × β)}
    (h : alGet k l = some v) : alSet k v l = l := by
  induction l with
  | nil => simp [alGet] at h
  | cons e t ih =>
    obtain ⟨k1, v1⟩ := e
    by_cases hk : k = k1
    · subst hk
      simp [alGet] at h
      simp [alSet, h]
    · simp [alGet, hk] at h
      simp [alSet, hk, ih h]

theorem alSet_alSet (k : α) (v w : β) (l : List (α × β)) :
    alSet k v (alSet k w l) = alSet k v l := by
  induction l with
  | nil => simp [alSet]
  | cons e t ih =>
    obtain ⟨k1, v1⟩ := e
    by_cases hk : k = k1
    · subst hk; simp [alSet]
    · simp [alSet, hk, ih]

theorem alGet_alDel_self (k : α) (l : List (α × β)) :
    alGet k (alDel k l) = none := by
  rw [alGet_eq_none_iff]
  intro hmem
  obtain ⟨e, he, hfst⟩ := List.mem_map.mp hmem
  have := List.mem_filter.mp he
  simp at this
  exact this.2 hfst

theorem alGet_alDel_ne {k k1 : α} (hk : k ≠ k1) (l : List (α × β)) :
    alGet k (alDel k1 l) = alGet k l := by
  induction l with
  | nil => simp [alDel, alGet]
  | cons e t ih =>
    obtain ⟨k2, v2⟩ := e
    by_cases h2 : k2 = k1
    · subst h2
      have hdrop : alDel k2 ((k2, v2) :: t) = alDel k2 t := by
        simp [alDel]
      rw [hdrop, ih]
      simp [alGet, hk]
    · have hkeep : alDel k1 ((k2, v2) :: t) = (k2, v2) :: alDel k1 t := by
        simp [alDel, h2]
      rw [hkeep]
      by_cases h3 : k = k2
      · subst h3; simp [alGet]
      · simp [alGet, h3, ih]

theorem alGet_append_left {k : α} {v : β} {l : List (α × β)}
    (l2 : List (α × β)) (h : alGet k l = some v) :
    alGet k (l ++ l2) = some v := by
  induction l with
  | nil => simp [alGet] at h
  | cons e t ih =>
    obtain ⟨k1, v1⟩ := e
    by_cases hk : k = k1
    · subst hk
      simp [alGet] at h
      simp [alGet, h]
    · simp [alGet, hk] at *
      exact ih h

theorem alGet_append_of_none {k : α} {l : List (α × β)}
    (l2 : List (α × β)) (h : alGet k l = none) :
    alGet k (l ++ l2) = alGet k l2 := by
  induction l with
  | nil => simp
  | cons e t ih =>
    obtain ⟨k1, v1⟩ := e
    by_cases hk : k = k1
    · subst hk; simp [alGet] at h
    · simp [alGet, hk] at *
      exact ih h

theorem alGet_map_val {k : α} (f : List PlugId → List PlugId)
    (l : List (α × List PlugId)) :
    alGet k (l.map (fun e => (e.1, f e.2))) = (alGet k l).map f := by
  induction l with
  | nil => simp [alGet]
  | cons e t ih =>
    obtain ⟨k1, v1⟩ := e
    by_cases hk : k = k1
    · subst hk; simp [alGet]
    · simp [alGet, hk, ih]

theorem alDel_sublist (k : α) (l : List (α × β)) :
    (alDel k l).Sublist l :=
  List.filter_sublist l

theorem alGet_mem_vals {k : α} {v : β} {l : List (α × β)}
    (h : alGet k l = some v) : v ∈ l.map Prod.snd :=
  List.mem_map.mpr ⟨(k, v), alGet_mem h, rfl⟩

theorem alGet_snoc_ne {k k1 : α} (hk : k ≠ k1) (v : β) (l : List (α × β)) :
    alGet k (l ++ [(k1, v)]) = alGet k l := by
  cases h : alGet k l with
  | some w => exact alGet_append_left _ h
  | none =>
    rw [alGet_append_of_none _ h]
    simp [alGet, hk]

theorem alGet_snoc_elim {k k1 : α} {v w : β} {l : List (α × β)}
    (h : alGet k (l ++ [(k1, v)]) = some w) :
    alGet k l = some w ∨ (alGet k l = none ∧ k = k1 ∧ w = v) := by
  cases h0 : alGet k l with
  | some u =>
    rw [alGet_append_left _ h0] at h
    injection h with h
    subst h
    exact Or.inl rfl
  | none =>
    rw [alGet_append_of_none _ h0] at h
    by_cases hk : k = k1
    · subst hk
      simp [alGet] at h
      subst h
      exact Or.inr ⟨rfl, rfl, rfl⟩
    · simp [alGet, hk] at h

theorem alGet_alDel_elim {k k1 : α} {v : β} {l : List (α × β)}
    (h : alGet k (alDel k1 l) = some v) :
    alGet k l = some v ∧ k ≠ k1 := by
  by_cases hk : k = k1
  · subst hk; rw [alGet_alDel_self] at h; cases h
  · rw [alGet_alDel_ne hk] at h; exact ⟨h, hk⟩

theorem alSet_mem_elim {k : α} {w : β} {e : α × β} {l : List (α × β)}
    (h : e ∈ alSet k w l) : e ∈ l ∨ e = (k, w) := by
  induction l with
  | nil => simp [alSet] at h; simp [h]
  | cons e1 t ih =>
    obtain ⟨k1, v1⟩ := e1
    by_cases hk : k = k1
    · subst hk
      simp [alSet] at h
      rcases h with h | h
      · exact Or.inr h
      · exact Or.inl (List.mem_cons_of_mem _ h)
    · simp [alSet, hk] at h
      rcases h with h | h
      · exact Or.inl (by simp [h])
      · rcases ih h with h1 | h1
        · exact Or.inl (List.mem_cons_of_mem _ h1)
        · exact Or.inr h1

end AList

/-!  Lemmas about the simple-event table. -/

theorem SimpleHooks.get_upd (h : SimpleHooks) (e e2 : SEvent)
    (f : List PlugId → List PlugId) :
    (h.upd e f).get e2 = if e2 = e then f (h.get e) else h.get e2 := by
  cases e <;> cases e2 <;> simp [SimpleHooks.upd, SimpleHooks.get]

theorem SimpleHooks.get_mapAll (h : SimpleHooks) (e : SEvent)
    (f : List PlugId → List PlugId) :
    (h.mapAll f).get e = f (h.get e) := by
  cases e <;> rfl

/-!  Lemmas about the dict-of-sets insertion shared by the command and
raw registrations. -/

theorem alBump_get_self {α : Type} [DecidableEq α] (k : α) (p : PlugId)
    (l : List (α × List PlugId)) :
    ∃ v, alGet k (alBump k p l) = some v ∧ p ∈ v := by
  unfold alBump
  cases h : alGet k l with
  | none =>
    refine ⟨pyAdd p [], ?_, pyAdd_mem_self p []⟩
    rw [alGet_append_of_none _ h]
    simp [alGet]
  | some v =>
    exact ⟨pyAdd p v, alGet_alSet_self k _ l, pyAdd_mem_self p v⟩

theorem alBump_get_ne {α : Type} [DecidableEq α] {k k1 : α} (hk : k ≠ k1)
    (p : PlugId) (l : List (α × List PlugId)) :
    alGet k (alBump k1 p l) = alGet k l := by
  unfold alBump
  cases h : alGet k1 l with
  | none => exact alGet_snoc_ne hk _ l
  | some v => exact alGet_alSet_ne hk _ l

theorem alBump_idem {α : Type} [DecidableEq α] (k : α) (p : PlugId)
    (l : List (α × List PlugId)) :
    alBump k p (alBump k p l) = alBump k p l := by
  cases h : alGet k l with
  | none =>
    have e1 : alBump k p l = l ++ [(k, pyAdd p [])] := by
      unfold alBump; rw [h]
    have h2 : alGet k (l ++ [(k, pyAdd p [])]) = some (pyAdd p []) := by
      rw [alGet_append_of_none _ h]; simp [alGet]
    calc alBump k p (alBump k p l)
        = alBump k p (l ++ [(k, pyAdd p [])]) := by rw [e1]
      _ = alSet k (pyAdd p (pyAdd p [])) (l ++ [(k, pyAdd p [])]) := by
            unfold alBump; rw [h2]
      _ = alSet k (pyAdd p []) (l ++ [(k, pyAdd p [])]) := by
            rw [pyAdd_idem]
      _ = l ++ [(k, pyAdd p [])] := alSet_same h2
      _ = alBump k p l := e1.symm
  | some v =>
    have e1 : alBump k p l = alSet k (pyAdd p v) l := by
      unfold alBump; rw [h]
    have h2 : alGet k (alSet k (pyAdd p v) l) = some (pyAdd p v) :=
      alGet_alSet_self k _ l
    calc alBump k p (alBump k p l)
        = alBump k p (alSet k (pyAdd p v) l) := by rw [e1]
      _ = alSet k (pyAdd p (pyAdd p v)) (alSet k (pyAdd p v) l) := by
            unfold alBump; rw [h2]
      _ = alSet k (pyAdd p v) (alSet k (pyAdd p v) l) := by
            rw [pyAdd_idem]
      _ = alSet k (pyAdd p v) l := alSet_alSet k _ _ l
      _ = alBump k p l := e1.symm

theorem alBump_entry_elim {α : Type} [DecidableEq α] {k : α} {p q : PlugId}
    {e : α × List PlugId} {l : List (α × List PlugId)}
    (he : e ∈ alBump k p l) (hq : q ∈ e.2) :
    q = p ∨ ∃ e0 ∈ l, q ∈ e0.2 := by
  unfold alBump at he
  cases h : alGet k l with
  | none =>
    rw [h] at he
    rcases List.mem_append.mp he with h1 | h1
    · exact Or.inr ⟨e, h1, hq⟩
    · have : e = (k, pyAdd p []) := List.mem_singleton.mp h1
      subst this
      simp at hq
      rcases pyAdd_mem_elim hq with h2 | h2
      · exact Or.inl h2
      · cases h2
  | some v =>
    rw [h] at he
    rcases alSet_mem_elim he with h1 | h1
    · exact Or.inr ⟨e, h1, hq⟩
    · subst h1
      simp at hq
      rcases pyAdd_mem_elim hq with h2 | h2
      · exact Or.inl h2
      · exact Or.inr ⟨(k, v), alGet_mem h, h2⟩

/-!  Projection lemmas for the registration operations, and a generic
fold-preservation principle. -/

@[simp] theorem add_command_plugs (c : String) (p : PlugId) (s : St) :
    (add_command c p s).plugs = s.plugs := rfl
@[simp] theorem add_command_cmdHooks (c : String) (p : PlugId) (s : St) :
    (add_command c p s).cmdHooks = alBump c p s.cmdHooks := rfl
@[simp] theorem add_command_rawHooks (c : String) (p : PlugId) (s : St) :
    (add_command c p s).rawHooks = s.rawHooks := rfl
@[simp] theorem add_command_sHooks (c : String) (p : PlugId) (s : St) :
    (add_command c p s).sHooks = s.sHooks := rfl
@[simp] theorem add_command_specs (c : String) (p : PlugId) (s : St) :
    (add_command c p s).specs = s.specs := rfl
@[simp] theorem add_command_nextId (c : String) (p : PlugId) (s : St) :
    (add_command c p s).nextId = s.nextId := rfl
@[simp] theorem add_command_cleanLog (c : String) (p : PlugId) (s : St) :
    (add_command c p s).cleanLog = s.cleanLog := rfl
@[simp] theorem add_command_shut (c : String) (p : PlugId) (s : St) :
    (add_command c p s).shuttingdown = s.shuttingdown := rfl

@[simp] theorem add_raw_plugs (c : String) (p : PlugId) (s : St) :
    (add_raw c p s).plugs = s.plugs := rfl
@[simp] theorem add_raw_cmdHooks (c : String) (p : PlugId) (s : St) :
    (add_raw c p s).cmdHooks = s.cmdHooks := rfl
@[simp] theorem add_raw_rawHooks (c : String) (p : PlugId) (s : St) :
    (add_raw c p s).rawHooks = alBump c p s.rawHooks := rfl
@[simp] theorem add_raw_sHooks (c : String) (p : PlugId) (s : St) :
    (add_raw c p s).sHooks = s.sHooks := rfl
@[simp] theorem add_raw_specs (c : String) (p : PlugId) (s : St) :
    (add_raw c p s).specs = s.specs := rfl
@[simp] theorem add_raw_nextId (c : String) (p : PlugId) (s : St) :
    (add_raw c p s).nextId = s.nextId := rfl
@[simp] theorem add_raw_cleanLog (c : String) (p : PlugId) (s : St) :
    (add_raw c p s).cleanLog = s.cleanLog := rfl
@[simp] theorem add_raw_shut (c : String) (p : PlugId) (s : St) :
    (add_raw c p s).shuttingdown = s.shuttingdown := rfl

@[simp] theorem add_callback_simple_fst (e : SEvent) (p : PlugId) (s : St) :
    (add_callback (.simple e) p s).1 = true := rfl
@[simp] theorem add_callback_other_fst (t : Nat) (p : PlugId) (s : St) :
    (add_callback (.other t) p s).1 = false := rfl
@[simp] theorem add_callback_other_snd (t : Nat) (p : PlugId) (s : St) :
    (add_callback (.other t) p s).2 = s := rfl
@[simp] theorem add_callback_simple_plugs (e : SEvent) (p : PlugId) (s : St) :
    ((add_callback (.simple e) p s).2).plugs = s.plugs := rfl
@[simp] theorem add_callback_simple_cmdHooks (e : SEvent) (p : PlugId)
    (s : St) : ((add_callback (.simple e) p s).2).cmdHooks = s.cmdHooks := rfl
@[simp] theorem add_callback_simple_rawHooks (e : SEvent) (p : PlugId)
    (s : St) : ((add_callback (.simple e) p s).2).rawHooks = s.rawHooks := rfl
@[simp] theorem add_callback_simple_sHooks (e : SEvent) (p : PlugId)
    (s : St) :
    ((add_callback (.simple e) p s).2).sHooks = s.sHooks.upd e (pyAdd p) := rfl
@[simp] theorem add_callback_simple_specs (e : SEvent) (p : PlugId) (s : St) :
    ((add_callback (.simple e) p s).2).specs = s.specs := rfl
@[simp] theorem add_callback_simple_nextId (e : SEvent) (p : PlugId)
    (s : St) : ((add_callback (.simple e) p s).2).nextId = s.nextId := rfl
@[simp] theorem add_callback_simple_cleanLog (e : SEvent) (p : PlugId)
    (s : St) : ((add_callback (.simple e) p s).2).cleanLog = s.cleanLog := rfl
@[simp] theorem add_callback_simple_shut (e : SEvent) (p : PlugId) (s : St) :
    ((add_callback (.simple e) p s).2).shuttingdown = s.shuttingdown := rfl

theorem foldl_pres {σ γ : Type} {P : σ → Prop} {f : σ → γ → σ}
    (hstep : ∀ s a, P s → P (f s a)) :
    ∀ (l : List γ) (s : σ), P s → P (l.foldl f s) := by
  intro l
  induction l with
  | nil => intro s h; exact h
  | cons a t ih => intro s h; exact ih _ (hstep s a h)

/-- The non-hook fields of the second state agree with the first. -/
def sameMeta (s s2 : St) : Prop :=
  s2.plugs = s.plugs ∧ s2.specs = s.specs ∧ s2.nextId = s.nextId ∧
  s2.cleanLog = s.cleanLog ∧ s2.shuttingdown = s.shuttingdown

theorem hook_events_frame (sp : PlugSpec) (p : PlugId) (s : St) :
    sameMeta s (hook_events sp p s) := by
  unfold hook_events
  have h1 := @foldl_pres St SEvent (sameMeta s)
    (fun acc e => (add_callback (.simple e) p acc).2)
    (fun s1 a h => by unfold sameMeta at h ⊢; simpa using h)
    sp.sevents s ⟨rfl, rfl, rfl, rfl, rfl⟩
  have h2 := @foldl_pres St String (sameMeta s)
    (fun acc c => add_command c p acc)
    (fun s1 a h => by unfold sameMeta at h ⊢; simpa using h)
    sp.commands _ h1
  exact @foldl_pres St String (sameMeta s)
    (fun acc c => add_raw c p acc)
    (fun s1 a h => by unfold sameMeta at h ⊢; simpa using h)
    sp.rawcodes _ h2

/-!  Preservation of existing registrations by the registration
operations, and the fact that the registration step of a load
subscribes the new instance to everything it declared. -/

theorem registered_add_command {q : PlugId} {sp : PlugSpec} {s : St}
    (c : String) (p : PlugId) (h : registered q sp s) :
    registered q sp (add_command c p s) := by
  obtain ⟨h1, h2, h3⟩ := h
  refine ⟨by simpa using h1, ?_, by simpa using h3⟩
  intro c1 hc1
  obtain ⟨l, hl, hql⟩ := h2 c1 hc1
  rw [add_command_cmdHooks]
  by_cases hcc : c1 = c
  · subst hcc
    have e1 : alBump c1 p s.cmdHooks = alSet c1 (pyAdd p l) s.cmdHooks := by
      unfold alBump; rw [hl]
    rw [e1]
    exact ⟨pyAdd p l, alGet_alSet_self c1 _ _, pyAdd_mem_mono p hql⟩
  · rw [alBump_get_ne hcc]
    exact ⟨l, hl, hql⟩

theorem registered_add_raw {q : PlugId} {sp : PlugSpec} {s : St}
    (c : String) (p : PlugId) (h : registered q sp s) :
    registered q sp (add_raw c p s) := by
  obtain ⟨h1, h2, h3⟩ := h
  refine ⟨by simpa using h1, by simpa using h2, ?_⟩
  intro c1 hc1
  obtain ⟨l, hl, hql⟩ := h3 c1 hc1
  rw [add_raw_rawHooks]
  by_cases hcc : c1 = c
  · subst hcc
    have e1 : alBump c1 p s.rawHooks = alSet c1 (pyAdd p l) s.rawHooks := by
      unfold alBump; rw [hl]
    rw [e1]
    exact ⟨pyAdd p l, alGet_alSet_self c1 _ _, pyAdd_mem_mono p hql⟩
  · rw [alBump_get_ne hcc]
    exact ⟨l, hl, hql⟩

theorem registered_add_callback {q : PlugId} {sp : PlugSpec} {s : St}
    (k : EKey) (p : PlugId) (h : registered q sp s) :
    registered q sp ((add_callback k p s).2) := by
  cases k with
  | other t => simpa using h
  | simple e =>
    obtain ⟨h1, h2, h3⟩ := h
    refine ⟨?_, by simpa using h2, by simpa using h3⟩
    intro e1 he1
    rw [add_callback_simple_sHooks, SimpleHooks.get_upd]
    split
    · next heq => subst heq; exact pyAdd_mem_mono p (h1 e1 he1)
    · exact h1 e1 he1

theorem registered_hook_events {q : PlugId} {sp0 : PlugSpec} {s : St}
    (sp : PlugSpec) (p : PlugId) (h : registered q sp0 s) :
    registered q sp0 (hook_events sp p s) := by
  unfold hook_events
  have h1 := @foldl_pres St SEvent (registered q sp0)
    (fun acc e => (add_callback (.simple e) p acc).2)
    (fun s1 a hr => registered_add_callback _ p hr)
    sp.sevents s h
  have h2 := @foldl_pres St String (registered q sp0)
    (fun acc c => add_command c p acc)
    (fun s1 a hr => registered_add_command a p hr)
    sp.commands _ h1
  exact @foldl_pres St String (registered q sp0)
    (fun acc c => add_raw c p acc)
    (fun s1 a hr => registered_add_raw a p hr)
    sp.rawcodes _ h2

theorem seFold_mem (p : PlugId) :
    ∀ (es : List SEvent) (s : St) (e : SEvent), e ∈ es →
      p ∈ ((es.foldl (fun acc e2 => (add_callback (.simple e2) p acc).2)
        s).sHooks.get e) := by
  intro es
  induction es with
  | nil => intro s e he; cases he
  | cons e0 t ih =>
    intro s e he
    rw [List.foldl_cons]
    rcases List.mem_cons.mp he with he | he
    · subst he
      have hbase : p ∈ ((add_callback (.simple e) p s).2).sHooks.get e := by
        rw [add_callback_simple_sHooks, SimpleHooks.get_upd]
        simp [pyAdd_mem_self]
      exact @foldl_pres St SEvent (fun s2 => p ∈ s2.sHooks.get e)
        (fun acc e2 => (add_callback (.simple e2) p acc).2)
        (fun s1 a hm => by
          show p ∈ ((add_callback (.simple a) p s1).2).sHooks.get e
          rw [add_callback_simple_sHooks, SimpleHooks.get_upd]
          split
          · next heq => subst heq; exact pyAdd_mem_mono p hm
          · exact hm)
        t _ hbase
    · exact ih _ e he

theorem cmdFold_mem (p : PlugId) :
    ∀ (cs : List String) (s : St) (c : String), c ∈ cs →
      ∃ l, alGet c ((cs.foldl (fun acc c2 => add_command c2 p acc)
        s).cmdHooks) = some l ∧ p ∈ l := by
  intro cs
  induction cs with
  | nil => intro s c hc; cases hc
  | cons c0 t ih =>
    intro s c hc
    rw [List.foldl_cons]
    rcases List.mem_cons.mp hc with hc | hc
    · subst hc
      have hbase : ∃ l, alGet c ((add_command c p s).cmdHooks) = some l ∧
          p ∈ l := by
        rw [add_command_cmdHooks]
        exact alBump_get_self c p s.cmdHooks
      exact @foldl_pres St String
        (fun s2 => ∃ l, alGet c s2.cmdHooks = some l ∧ p ∈ l)
        (fun acc c2 => add_command c2 p acc)
        (fun s1 a hm => by
          show ∃ l, alGet c ((add_command a p s1).cmdHooks) = some l ∧ p ∈ l
          obtain ⟨l, hl, hpl⟩ := hm
          rw [add_command_cmdHooks]
          by_cases hca : c = a
          · subst hca
            have e1 : alBump c p s1.cmdHooks =
                alSet c (pyAdd p l) s1.cmdHooks := by
              unfold alBump; rw [hl]
            rw [e1]
            exact ⟨pyAdd p l, alGet_alSet_self c _ _, pyAdd_mem_mono p hpl⟩
          · rw [alBump_get_ne hca]
            exact ⟨l, hl, hpl⟩)
        t _ hbase
    · exact ih _ c hc

theorem rawFold_mem (p : PlugId) :
    ∀ (cs : List String) (s : St) (c : String), c ∈ cs →
      ∃ l, alGet c ((cs.foldl (fun acc c2 => add_raw c2 p acc)
        s).rawHooks) = some l ∧ p ∈ l := by
  intro cs
  induction cs with
  | nil => intro s c hc; cases hc
  | cons c0 t ih =>
    intro s c hc
    rw [List.foldl_cons]
    rcases List.mem_cons.mp hc with hc | hc
    · subst hc
      have hbase : ∃ l, alGet c ((add_raw c p s).rawHooks) = some l ∧
          p ∈ l := by
        rw [add_raw_rawHooks]
        exact alBump_get_self c p s.rawHooks
      exact @foldl_pres St String
        (fun s2 => ∃ l, alGet c s2.rawHooks = some l ∧ p ∈ l)
        (fun acc c2 => add_raw c2 p acc)
        (fun s1 a hm => by
          show ∃ l, alGet c ((add_raw a p s1).rawHooks) = some l ∧ p ∈ l
          obtain ⟨l, hl, hpl⟩ := hm
          rw [add_raw_rawHooks]
          by_cases hca : c = a
          · subst hca
            have e1 : alBump c p s1.rawHooks =
                alSet c (pyAdd p l) s1.rawHooks := by
              unfold alBump; rw [hl]
            rw [e1]
            exact ⟨pyAdd p l, alGet_alSet_self c _ _, pyAdd_mem_mono p hpl⟩
          · rw [alBump_get_ne hca]
            exact ⟨l, hl, hpl⟩)
        t _ hbase
    · exact ih _ c hc

theorem hook_events_self (sp : PlugSpec) (p : PlugId) (s : St) :
    registered p sp (hook_events sp p s) := by
  unfold hook_events
  refine ⟨?_, ?_, ?_⟩
  · intro e he
    have h1 := seFold_mem p sp.sevents s e he
    have h2 := @foldl_pres St String (fun s2 => p ∈ s2.sHooks.get e)
      (fun acc c => add_command c p acc)
      (fun s1 a hm => by simpa using hm)
      sp.commands _ h1
    exact @foldl_pres St String (fun s2 => p ∈ s2.sHooks.get e)
      (fun acc c => add_raw c p acc)
      (fun s1 a hm => by simpa using hm)
      sp.rawcodes _ h2
  · intro c hc
    have h2 := cmdFold_mem p sp.commands
      (sp.sevents.foldl (fun acc e2 => (add_callback (.simple e2) p acc).2) s)
      c hc
    exact @foldl_pres St String
      (fun s2 => ∃ l, alGet c s2.cmdHooks = some l ∧ p ∈ l)
      (fun acc c2 => add_raw c2 p acc)
      (fun s1 a hm => by simpa using hm)
      sp.rawcodes _ h2
  · intro c hc
    exact rawFold_mem p sp.rawcodes _ c hc

/-!  Tracing a hook-table occurrence back through the registration and
removal operations. -/

theorem inHooks_add_command_elim {q : PlugId} {s : St} {c : String}
    {p : PlugId} (h : inHooks q (add_command c p s)) :
    q = p ∨ inHooks q s := by
  unfold inHooks at h ⊢
  rcases h with ⟨e, he, hq⟩ | ⟨e, he, hq⟩ | ⟨ev, hq⟩
  · rw [add_command_cmdHooks] at he
    rcases alBump_entry_elim he hq with h1 | ⟨e0, he0, hq0⟩
    · exact Or.inl h1
    · exact Or.inr (Or.inl ⟨e0, he0, hq0⟩)
  · rw [add_command_rawHooks] at he
    exact Or.inr (Or.inr (Or.inl ⟨e, he, hq⟩))
  · rw [add_command_sHooks] at hq
    exact Or.inr (Or.inr (Or.inr ⟨ev, hq⟩))

theorem inHooks_add_raw_elim {q : PlugId} {s : St} {c : String}
    {p : PlugId} (h : inHooks q (add_raw c p s)) :
    q = p ∨ inHooks q s := by
  unfold inHooks at h ⊢
  rcases h with ⟨e, he, hq⟩ | ⟨e, he, hq⟩ | ⟨ev, hq⟩
  · rw [add_raw_cmdHooks] at he
    exact Or.inr (Or.inl ⟨e, he, hq⟩)
  · rw [add_raw_rawHooks] at he
    rcases alBump_entry_elim he hq with h1 | ⟨e0, he0, hq0⟩
    · exact Or.inl h1
    · exact Or.inr (Or.inr (Or.inl ⟨e0, he0, hq0⟩))
  · rw [add_raw_sHooks] at hq
    exact Or.inr (Or.inr (Or.inr ⟨ev, hq⟩))

theorem inHooks_add_callback_elim {q : PlugId} {s : St} {k : EKey}
    {p : PlugId} (h : inHooks q ((add_callback k p s).2)) :
    q = p ∨ inHooks q s := by
  cases k with
  | other t => exact Or.inr (by simpa using h)
  | simple e =>
    unfold inHooks at h ⊢
    rcases h with ⟨e1, he, hq⟩ | ⟨e1, he, hq⟩ | ⟨ev, hq⟩
    · rw [add_callback_simple_cmdHooks] at he
      exact Or.inr (Or.inl ⟨e1, he, hq⟩)
    · rw [add_callback_simple_rawHooks] at he
      exact Or.inr (Or.inr (Or.inl ⟨e1, he, hq⟩))
    · rw [add_callback_simple_sHooks, SimpleHooks.get_upd] at hq
      by_cases hev : ev = e
      · rw [if_pos hev] at hq
        rcases pyAdd_mem_elim hq with h1 | h1
        · exact Or.inl h1
        · exact Or.inr (Or.inr (Or.inr ⟨e, h1⟩))
      · rw [if_neg hev] at hq
        exact Or.inr (Or.inr (Or.inr ⟨ev, hq⟩))

theorem inHooks_hook_events_elim {q : PlugId} {sp : PlugSpec} {p : PlugId}
    {s : St} (h : inHooks q (hook_events sp p s)) :
    q = p ∨ inHooks q s := by
  unfold hook_events at h
  have h1 := @foldl_pres St SEvent
    (fun s2 => inHooks q s2 → q = p ∨ inHooks q s)
    (fun acc e => (add_callback (.simple e) p acc).2)
    (fun s1 a hP => by
      intro hin
      have hin2 : inHooks q ((add_callback (.simple a) p s1).2) := hin
      rcases inHooks_add_callback_elim hin2 with he | hi
      · exact Or.inl he
      · exact hP hi)
    sp.sevents s Or.inr
  have h2 := @foldl_pres St String
    (fun s2 => inHooks q s2 → q = p ∨ inHooks q s)
    (fun acc c => add_command c p acc)
    (fun s1 a hP => by
      intro hin
      have hin2 : inHooks q (add_command a p s1) := hin
      rcases inHooks_add_command_elim hin2 with he | hi
      · exact Or.inl he
      · exact hP hi)
    sp.commands _ h1
  have h3 := @foldl_pres St String
    (fun s2 => inHooks q s2 → q = p ∨ inHooks q s)
    (fun acc c => add_raw c p acc)
    (fun s1 a hP => by
      intro hin
      have hin2 : inHooks q (add_raw a p s1) := hin
      rcases inHooks_add_raw_elim hin2 with he | hi
      · exact Or.inl he
      · exact hP hi)
    sp.rawcodes _ h2
  exact h3 h

@[simp] theorem removedSt_plugs (n : String) (p : PlugId) (s : St) :
    (removedSt n p s).plugs = alDel n s.plugs := rfl
@[simp] theorem removedSt_cmdHooks (n : String) (p : PlugId) (s : St) :
    (removedSt n p s).cmdHooks =
      s.cmdHooks.map (fun e => (e.1, pyDiscard p e.2)) := rfl
@[simp] theorem removedSt_rawHooks (n : String) (p : PlugId) (s : St) :
    (removedSt n p s).rawHooks =
      s.rawHooks.map (fun e => (e.1, pyDiscard p e.2)) := rfl
@[simp] theorem removedSt_sHooks (n : String) (p : PlugId) (s : St) :
    (removedSt n p s).sHooks = s.sHooks.mapAll (pyDiscard p) := rfl
@[simp] theorem removedSt_specs (n : String) (p : PlugId) (s : St) :
    (removedSt n p s).specs = s.specs := rfl
@[simp] theorem removedSt_nextId (n : String) (p : PlugId) (s : St) :
    (removedSt n p s).nextId = s.nextId := rfl
@[simp] theorem removedSt_cleanLog (n : String) (p : PlugId) (s : St) :
    (removedSt n p s).cleanLog = s.cleanLog := rfl

theorem inHooks_removedSt_elim {q p : PlugId} {n : String} {s : St}
    (h : inHooks q (removedSt n p s)) : q ≠ p ∧ inHooks q s := by
  unfold inHooks at h ⊢
  rcases h with ⟨e, he, hq⟩ | ⟨e, he, hq⟩ | ⟨ev, hq⟩
  · rw [removedSt_cmdHooks] at he
    obtain ⟨e0, he0, heq⟩ := List.mem_map.mp he
    subst heq
    have h2 : q ∈ pyDiscard p e0.2 := hq
    have h3 := pyDiscard_mem.mp h2
    exact ⟨h3.2, Or.inl ⟨e0, he0, h3.1⟩⟩
  · rw [removedSt_rawHooks] at he
    obtain ⟨e0, he0, heq⟩ := List.mem_map.mp he
    subst heq
    have h2 : q ∈ pyDiscard p e0.2 := hq
    have h3 := pyDiscard_mem.mp h2
    exact ⟨h3.2, Or.inr (Or.inl ⟨e0, he0, h3.1⟩)⟩
  · rw [removedSt_sHooks, SimpleHooks.get_mapAll] at hq
    have h3 := pyDiscard_mem.mp hq
    exact ⟨h3.2, Or.inr (Or.inr ⟨ev, h3.1⟩)⟩

theorem registered_removedSt {q p : PlugId} {sp : PlugSpec} {n : String}
    {s : St} (hne : q ≠ p) (h : registered q sp s) :
    registered q sp (removedSt n p s) := by
  obtain ⟨h1, h2, h3⟩ := h
  refine ⟨?_, ?_, ?_⟩
  · intro e he
    rw [removedSt_sHooks, SimpleHooks.get_mapAll]
    exact pyDiscard_mem.mpr ⟨h1 e he, hne⟩
  · intro c hc
    obtain ⟨l, hl, hql⟩ := h2 c hc
    rw [removedSt_cmdHooks, alGet_map_val]
    exact ⟨pyDiscard p l, by rw [hl]; rfl, pyDiscard_mem.mpr ⟨hql, hne⟩⟩
  · intro c hc
    obtain ⟨l, hl, hql⟩ := h3 c hc
    rw [removedSt_rawHooks, alGet_map_val]
    exact ⟨pyDiscard p l, by rw [hl]; rfl, pyDiscard_mem.mpr ⟨hql, hne⟩⟩

/-!  Preservation of the kernel invariant by load-fresh loads and by
removals. -/

theorem nodup_snoc {α : Type} (a : α) (l : List α) :
    (l ++ [a]).Nodup ↔ l.Nodup ∧ a ∉ l := by
  simp [List.nodup_append]

theorem nodup_map_snd_eq {l : List (String × PlugId)}
    (hnd : (l.map Prod.snd).Nodup) {n m : String} {p : PlugId}
    (hn : (n, p) ∈ l) (hm : (m, p) ∈ l) : n = m := by
  induction l with
  | nil => cases hn
  | cons e t ih =>
    rw [List.map_cons] at hnd
    have hnd2 := List.nodup_cons.mp hnd
    rcases List.mem_cons.mp hn with hn1 | hn1 <;>
      rcases List.mem_cons.mp hm with hm1 | hm1
    · exact congrArg Prod.fst (hn1.trans hm1.symm)
    · exfalso
      apply hnd2.1
      have hp : p ∈ t.map Prod.snd := List.mem_map.mpr ⟨(m, p), hm1, rfl⟩
      have he2 : e.2 = p := by rw [← hn1]
      rw [he2]
      exact hp
    · exfalso
      apply hnd2.1
      have hp : p ∈ t.map Prod.snd := List.mem_map.mpr ⟨(n, p), hn1, rfl⟩
      have he2 : e.2 = p := by rw [← hm1]
      rw [he2]
      exact hp
    · exact ih hnd2.2 hn1 hm1

theorem Kinv_load {s : St} {n : String} (sp : PlugSpec) (hi : Kinv s)
    (hfresh : alGet n s.plugs = none) : Kinv (load_plug n sp s) := by
  have hplugs1 : alSet n s.nextId s.plugs = s.plugs ++ [(n, s.nextId)] :=
    alSet_fresh _ hfresh
  have hload : load_plug n sp s =
      hook_events sp s.nextId
        { s with plugs := alSet n s.nextId s.plugs
                 specs := s.specs ++ [(s.nextId, sp)]
                 nextId := s.nextId + 1 } := rfl
  have hf := hook_events_frame sp s.nextId
    { s with plugs := alSet n s.nextId s.plugs
             specs := s.specs ++ [(s.nextId, sp)]
             nextId := s.nextId + 1 }
  unfold sameMeta at hf
  obtain ⟨hfp, hfs, hfn, _, _⟩ := hf
  rw [← hload] at hfp hfs hfn
  have hfp2 : (load_plug n sp s).plugs = s.plugs ++ [(n, s.nextId)] := by
    rw [hfp]; exact hplugs1
  have hfs2 : (load_plug n sp s).specs = s.specs ++ [(s.nextId, sp)] := hfs
  have hfn2 : (load_plug n sp s).nextId = s.nextId + 1 := hfn
  have hkeys : n ∉ s.plugs.map Prod.fst := alGet_eq_none_iff.mp hfresh
  have hspecnone : alGet s.nextId s.specs = none := by
    rw [alGet_eq_none_iff]
    intro hmem
    obtain ⟨q, hq, hq2⟩ := List.mem_map.mp hmem
    have hlt := hi.specKeysLt q hq
    rw [hq2] at hlt
    exact lt_irrefl _ hlt
  have hgetn : alGet n ((load_plug n sp s).plugs) = some s.nextId := by
    rw [hfp2, alGet_append_of_none _ hfresh]
    simp [alGet]
  have hgetspec : alGet s.nextId ((load_plug n sp s).specs) = some sp := by
    rw [hfs2, alGet_append_of_none _ hspecnone]
    simp [alGet]
  constructor
  · rw [hfp2, List.map_append]
    exact (nodup_snoc n _).mpr ⟨hi.keysND, hkeys⟩
  · rw [hfp2, List.map_append]
    refine (nodup_snoc _ _).mpr ⟨hi.valsND, ?_⟩
    intro hmem
    obtain ⟨q, hq, hq2⟩ := List.mem_map.mp hmem
    have hlt := hi.valsLt q hq
    rw [hq2] at hlt
    exact lt_irrefl _ hlt
  · intro q hq
    rw [hfn2]
    rw [hfp2] at hq
    rcases List.mem_append.mp hq with h1 | h1
    · exact Nat.lt_succ_of_lt (hi.valsLt q h1)
    · have : q = (n, s.nextId) := List.mem_singleton.mp h1
      rw [this]
      exact Nat.lt_succ_self _
  · intro q hq
    rw [hfn2]
    rw [hfs2] at hq
    rcases List.mem_append.mp hq with h1 | h1
    · exact Nat.lt_succ_of_lt (hi.specKeysLt q h1)
    · have : q = (s.nextId, sp) := List.mem_singleton.mp h1
      rw [this]
      exact Nat.lt_succ_self _
  · intro q hq
    rw [hload] at hq
    rcases inHooks_hook_events_elim hq with h1 | h1
    · refine ⟨n, ?_⟩
      rw [h1]
      exact hgetn
    · have h2 : inHooks q s := h1
      obtain ⟨m, hm⟩ := hi.fwd q h2
      have hmn : m ≠ n := by
        intro he
        rw [he, hfresh] at hm
        cases hm
      refine ⟨m, ?_⟩
      rw [hfp2]
      exact alGet_append_left _ hm
  · intro m q hm
    rw [hfp2] at hm
    rcases alGet_snoc_elim hm with h1 | ⟨_, _, h3⟩
    · obtain ⟨sq, hsq⟩ := hi.specTotal m q h1
      refine ⟨sq, ?_⟩
      rw [hfs2]
      exact alGet_append_left _ hsq
    · refine ⟨sp, ?_⟩
      rw [h3]
      exact hgetspec
  · intro m q hm sq hsq
    rw [hfp2] at hm
    rcases alGet_snoc_elim hm with h1 | ⟨_, _, h3⟩
    · have hqlt : q < s.nextId := hi.valsLt (m, q) (alGet_mem h1)
      have hqne : q ≠ s.nextId := Nat.ne_of_lt hqlt
      rw [hfs2, alGet_snoc_ne hqne] at hsq
      have hreg : registered q sq s := hi.conv m q h1 sq hsq
      have hreg1 : registered q sq
          { s with plugs := alSet n s.nextId s.plugs
                   specs := s.specs ++ [(s.nextId, sp)]
                   nextId := s.nextId + 1 } := hreg
      rw [hload]
      exact registered_hook_events sp s.nextId hreg1
    · rw [h3] at hsq
      rw [hgetspec] at hsq
      injection hsq with hsq
      rw [h3, hload, ← hsq]
      exact hook_events_self sp s.nextId _

theorem remove_plug_eq_none {env : Env} {n : String} {s : St}
    (hget : alGet n s.plugs = none) :
    remove_plug env n s = (s, some Err.keyError) := by
  unfold remove_plug
  rw [hget]

theorem remove_plug_eq_fail {env : Env} {n : String} {s : St} {p : PlugId}
    (hget : alGet n s.plugs = some p) (hcf : env.cleanupFails p = true) :
    remove_plug env n s =
      ({ s with cleanLog := s.cleanLog ++ [p] }, some Err.cleanupError) := by
  unfold remove_plug
  rw [hget]
  simp [hcf]

theorem remove_plug_eq_ok {env : Env} {n : String} {s : St} {p : PlugId}
    (hget : alGet n s.plugs = some p) (hcf : env.cleanupFails p = false) :
    remove_plug env n s =
      (removedSt n p { s with cleanLog := s.cleanLog ++ [p] }, none) := by
  unfold remove_plug
  rw [hget]
  simp [hcf]

theorem Kinv_remove {s : St} (hi : Kinv s) (env : Env) (n : String) :
    Kinv ((remove_plug env n s).1) := by
  cases hget : alGet n s.plugs with
  | none =>
    rw [remove_plug_eq_none hget]
    exact hi
  | some p =>
    cases hcf : env.cleanupFails p with
    | true =>
      rw [remove_plug_eq_fail hget hcf]
      exact ⟨hi.keysND, hi.valsND, hi.valsLt, hi.specKeysLt, hi.fwd,
        hi.specTotal, hi.conv⟩
    | false =>
      rw [remove_plug_eq_ok hget hcf]
      have hsub := alDel_sublist n s.plugs
      constructor
      · exact hi.keysND.sublist (hsub.map Prod.fst)
      · exact hi.valsND.sublist (hsub.map Prod.snd)
      · intro q hq
        exact hi.valsLt q (hsub.subset hq)
      · intro q hq
        exact hi.specKeysLt q hq
      · intro q hq
        obtain ⟨hne, hin⟩ := inHooks_removedSt_elim hq
        have hin2 : inHooks q s := hin
        obtain ⟨m, hm⟩ := hi.fwd q hin2
        have hmn : m ≠ n := by
          intro he
          rw [he, hget] at hm
          injection hm with hm
          exact hne hm.symm
        refine ⟨m, ?_⟩
        show alGet m (alDel n s.plugs) = some q
        rw [alGet_alDel_ne hmn]
        exact hm
      · intro m q hm
        have hm2 : alGet m (alDel n s.plugs) = some q := hm
        obtain ⟨hm3, _⟩ := alGet_alDel_elim hm2
        exact hi.specTotal m q hm3
      · intro m q hm sq hsq
        have hm2 : alGet m (alDel n s.plugs) = some q := hm
        obtain ⟨hm3, hmn⟩ := alGet_alDel_elim hm2
        have hsq2 : alGet q s.specs = some sq := hsq
        have hqp : q ≠ p := by
          intro he
          subst he
          exact hmn (nodup_map_snd_eq hi.valsND (alGet_mem hm3)
            (alGet_mem hget))
        have hreg : registered q sq s := hi.conv m q hm3 sq hsq2
        have hreg1 : registered q sq
            { s with cleanLog := s.cleanLog ++ [p] } := hreg
        exact registered_removedSt hqp hreg1

theorem Kinv_init : Kinv initSt := by
  constructor
  · simp [initSt]
  · simp [initSt]
  · intro q hq; simp [initSt] at hq
  · intro q hq; simp [initSt] at hq
  · intro q hq
    exfalso
    rcases hq with ⟨e, he, _⟩ | ⟨e, he, _⟩ | ⟨ev, hev⟩
    · simp [initSt] at he
    · simp [initSt] at he
    · cases ev <;> simp [initSt, SimpleHooks.get] at hev
  · intro m q hm; simp [initSt, alGet] at hm
  · intro m q hm sq hsq; simp [initSt, alGet] at hm

theorem runInv (env : Env) : ∀ (ops : List Op) (s : St), Kinv s →
    legalSeq env ops s = true → Kinv (run env ops s) := by
  intro ops
  induction ops with
  | nil =>
    intro s hi _
    exact hi
  | cons o t ih =>
    intro s hi hleg
    unfold legalSeq at hleg
    rw [Bool.and_eq_true] at hleg
    obtain ⟨hop, hrest⟩ := hleg
    have hrun : run env (o :: t) s = run env t (applyOp env s o) := by
      unfold run
      rw [List.foldl_cons]
    rw [hrun]
    refine ih _ ?_ hrest
    cases o with
    | load nm sp =>
      have hop2 : (alGet nm s.plugs).isNone = true := hop
      have hfresh : alGet nm s.plugs = none := by
        cases hg : alGet nm s.plugs with
        | none => rfl
        | some v => rw [hg] at hop2; simp at hop2
      exact Kinv_load sp hi hfresh
    | remove nm => exact Kinv_remove hi env nm

/-!  Behaviour of snapshot iteration and of the cleanup loops. -/

theorem runSnap_ok {h : Handler} (argv : List String)
    (Hh : ∀ p s, (h p s).2 = none) :
    ∀ (l : List PlugId) (s : St),
      (runSnap h argv l s).log = l.map (fun p => (p, argv)) ∧
      (runSnap h argv l s).err = none := by
  intro l
  induction l with
  | nil => intro s; exact ⟨rfl, rfl⟩
  | cons p rest ih =>
    intro s
    have hps := Hh p s
    unfold runSnap
    cases hc : h p s with
    | mk s1 e =>
      rw [hc] at hps
      simp at hps
      subst hps
      simp only []
      obtain ⟨ih1, ih2⟩ := ih s1
      constructor
      · rw [List.map_cons]
        show (p, argv) :: (runSnap h argv rest s1).log = _
        rw [ih1]
      · exact ih2

theorem runSnap_single (h : Handler) (argv : List String) (a : PlugId)
    (s : St) : (runSnap h argv [a] s).log = [(a, argv)] := by
  unfold runSnap
  cases hc : h a s with
  | mk s1 e =>
    cases e with
    | none => simp only []; rfl
    | some e1 => simp only []

theorem runSnap_head_err {h : Handler} {p : PlugId} {s : St} {e : Err}
    (argv : List String) (rest : List PlugId)
    (he : (h p s).2 = some e) :
    (runSnap h argv (p :: rest) s).log = [(p, argv)] ∧
    (runSnap h argv (p :: rest) s).err = some e := by
  unfold runSnap
  cases hc : h p s with
  | mk s1 e1 =>
    rw [hc] at he
    simp at he
    subst he
    exact ⟨rfl, rfl⟩

theorem runCleanups_ok {env : Env} :
    ∀ (ids : List PlugId) (s : St), (∀ p ∈ ids, env.cleanupFails p = false) →
      runCleanups env ids s =
        ({ s with cleanLog := s.cleanLog ++ ids }, none) := by
  intro ids
  induction ids with
  | nil => intro s _; simp [runCleanups]
  | cons p rest ih =>
    intro s hok
    have hp : env.cleanupFails p = false := hok p (List.mem_cons_self p rest)
    unfold runCleanups
    rw [hp]
    simp only [Bool.false_eq_true, if_false]
    rw [ih _ (fun q hq => hok q (List.mem_cons_of_mem p hq))]
    have hap : (s.cleanLog ++ [p]) ++ rest = s.cleanLog ++ p :: rest := by
      rw [List.append_assoc]
      rfl
    rw [hap]

/-!  Lemmas about the Python string helpers. -/

theorem pySplitAux_eq_nil :
    ∀ (l acc : List Char), pySplitAux l acc = [] →
      (∀ c ∈ l, pyIsSpace c = true) ∧ acc = [] := by
  intro l
  induction l with
  | nil =>
    intro acc h
    unfold pySplitAux at h
    cases hacc : acc.isEmpty with
    | true => exact ⟨fun c hc => absurd hc (List.not_mem_nil c),
        List.isEmpty_iff.mp hacc⟩
    | false => rw [hacc] at h; simp at h
  | cons c rest ih =>
    intro acc h
    unfold pySplitAux at h
    cases hsp : pyIsSpace c with
    | true =>
      rw [hsp] at h
      simp only [if_true] at h
      cases hacc : acc.isEmpty with
      | true =>
        rw [hacc] at h
        simp only [if_true] at h
        obtain ⟨h1, _⟩ := ih [] h
        refine ⟨?_, List.isEmpty_iff.mp hacc⟩
        intro c1 hc1
        rcases List.mem_cons.mp hc1 with hc1 | hc1
        · rw [hc1]; exact hsp
        · exact h1 c1 hc1
      | false =>
        rw [hacc] at h
        simp at h
    | false =>
      rw [hsp] at h
      simp only [Bool.false_eq_true, if_false] at h
      obtain ⟨_, h2⟩ := ih (c :: acc) h
      cases h2

theorem pySplit_ne_nil {l : List Char} {c : Char} (hc : c ∈ l)
    (hns : pyIsSpace c = false) : pySplit l ≠ [] := by
  intro h
  obtain ⟨h1, _⟩ := pySplitAux_eq_nil l [] h
  rw [h1 c hc] at hns
  cases hns

theorem dropWhile_head_false {p : Char → Bool} :
    ∀ {l c t}, List.dropWhile p l = c :: t → p c = false := by
  intro l
  induction l with
  | nil => intro c t h; simp [List.dropWhile] at h
  | cons c1 rest ih =>
    intro c t h
    rw [List.dropWhile_cons] at h
    cases hp : p c1 with
    | true => rw [hp] at h; simp only [if_true] at h; exact ih h
    | false =>
      rw [hp] at h
      simp only [Bool.false_eq_true, if_false] at h
      injection h with h1 _
      rw [← h1]
      exact hp

theorem event_command_entry {a0 : String} {s : St} {l : List PlugId}
    (h : Handler) (rest : List String)
    (hl : alGet a0 s.cmdHooks = some l) :
    event_command h (a0 :: rest) s = runSnap h (a0 :: rest) l s := by
  have hred : event_command h (a0 :: rest) s =
      match alGet a0 s.cmdHooks with
      | none => ⟨s, [], none⟩
      | some l2 => runSnap h (a0 :: rest) l2 s := rfl
  rw [hred, hl]

theorem event_command_nokey {a0 : String} {s : St} (h : Handler)
    (rest : List String) (hl : alGet a0 s.cmdHooks = none) :
    event_command h (a0 :: rest) s = ⟨s, [], none⟩ := by
  have hred : event_command h (a0 :: rest) s =
      match alGet a0 s.cmdHooks with
      | none => ⟨s, [], none⟩
      | some l2 => runSnap h (a0 :: rest) l2 s := rfl
  rw [hred, hl]

theorem event_raw_entry {code : String} {s : St} {l : List PlugId}
    (h : Handler) (hl : alGet code s.rawHooks = some l) :
    event_raw h code s = runSnap h [code] l s := by
  unfold event_raw
  rw [hl]

/-!  Claim theorems. -/

/-- C1 (amended).  The original claim asserts the snapshot discipline
for every dispatch.  The code snapshots only for command and raw
dispatch; the simple-event dispatchers iterate the live set.  Amended:
for command and raw dispatch the plugs invoked are exactly the
subscriber set snapshotted at the start of the dispatch, each invoked
once with the full argv and with no error, even when the
(non-raising) handlers load or remove plugs; but for a channel-message
dispatch, a handler that changes the size of the live chanmsg
subscriber set (for instance by removing its own plug) makes the
dispatch raise RuntimeError. -/
theorem claim1_snapshot_dispatch (h : Handler)
    (Hh : ∀ p s, (h p s).2 = none) :
    (∀ (a0 : String) (rest : List String) (s : St) (l : List PlugId),
      alGet a0 s.cmdHooks = some l →
      (event_command h (a0 :: rest) s).log =
        l.map (fun p => (p, a0 :: rest)) ∧
      (event_command h (a0 :: rest) s).err = none) ∧
    (∀ (code : String) (s : St) (l : List PlugId),
      alGet code s.rawHooks = some l →
      (event_raw h code s).log = l.map (fun p => (p, [code])) ∧
      (event_raw h code s).err = none) ∧
    (∀ (p : PlugId) (s : St), s.sHooks.chanmsg = [p] →
      ((h p s).1).sHooks.chanmsg.length ≠ 1 →
      (event_chanmsg h s).err = some Err.runtimeError ∧
      (event_chanmsg h s).log = [p]) := by
  refine ⟨?_, ?_, ?_⟩
  · intro a0 rest s l hl
    rw [event_command_entry h rest hl]
    exact runSnap_ok (a0 :: rest) Hh l s
  · intro code s l hl
    rw [event_raw_entry h hl]
    exact runSnap_ok [code] Hh l s
  · intro p s hc hlen
    have hps := Hh p s
    unfold event_chanmsg
    rw [hc]
    unfold iterLive
    rw [hc]
    simp only [List.length_singleton, if_pos rfl, if_true]
    cases hcall : h p s with
    | mk s1 e =>
      rw [hcall] at hps hlen
      simp at hps
      subst hps
      simp only []
      unfold iterLive
      rw [if_neg hlen]
      exact ⟨rfl, rfl⟩

/-- C1 counterexample: a single plug subscribed to chanmsg whose
handler removes it (via remove_plug, as the Core reload command can)
makes event_chanmsg raise RuntimeError, contradicting "no error is
raised". -/
theorem claim1_cex :
    stChanA.sHooks.chanmsg = [0] ∧
    (event_chanmsg hRemoveA stChanA).err = some Err.runtimeError := by
  exact ⟨by decide, by decide⟩

/-- C1 witness: the amended theorem applied to the remove-A handler on
concrete states. -/
theorem claim1_snapshot_dispatch_wit :
    (event_command hRemoveA ["ping"] stPingA).log = [(0, ["ping"])] ∧
    (event_chanmsg hRemoveA stChanA).log = [0] := by
  have H := claim1_snapshot_dispatch hRemoveA (fun p s => rfl)
  constructor
  · have h1 := (H.1 "ping" [] stPingA [0] (by decide)).1
    rw [h1]
    decide
  · exact (H.2.2 0 stChanA (by decide) (by decide)).2

/-- The operation sequence used to witness the registry invariant. -/
def wOps : List Op := [.load "A" spChan, .load "B" spPing, .remove "A"]

/-- C2 (amended).  The original claim asserts the hooks/active-set
correspondence after every load/remove sequence; it fails because
load_plug never rejects an already-present name (the overwritten
instance stays registered).  Amended: after any sequence in which each
load targets a name that is not active at that point, every instance
reachable from a hook table is the active instance of some name, and
every active instance is subscribed in the tables to every interest its
module declared. -/
theorem claim2_registry_invariant (env : Env) (ops : List Op)
    (hleg : legalSeq env ops initSt = true) :
    (∀ p, inHooks p (run env ops initSt) →
      ∃ n, alGet n (run env ops initSt).plugs = some p) ∧
    (∀ n p, alGet n (run env ops initSt).plugs = some p →
      ∃ sp, alGet p (run env ops initSt).specs = some sp ∧
        registered p sp (run env ops initSt)) := by
  have hi := runInv env ops initSt Kinv_init hleg
  refine ⟨hi.fwd, ?_⟩
  intro n p hget
  obtain ⟨sp, hsp⟩ := hi.specTotal n p hget
  exact ⟨sp, hsp, hi.conv n p hget sp hsp⟩

/-- C2 counterexample: after the sequence load A; load A (no remove in
between), instance 0 still sits in the chanmsg hooks entry while the
active plug dictionary maps A to instance 1 only, so the hooks tables
reach an instance that no name maps to. -/
theorem claim2_cex :
    inHooks 0 stTwice ∧ stTwice.plugs = [("A", 1)] ∧
    0 ∉ activeIds stTwice := by
  refine ⟨by decide, by decide, by decide⟩

/-- C2 witness: the amended invariant applied to a concrete load-fresh
sequence. -/
theorem claim2_registry_invariant_wit :
    legalSeq envOk wOps initSt = true ∧
    (inHooks 1 (run envOk wOps initSt) →
      ∃ n, alGet n (run envOk wOps initSt).plugs = some 1) := by
  refine ⟨by decide, ?_⟩
  exact fun h => (claim2_registry_invariant envOk wOps (by decide)).1 1 h

/-- C3 (amended).  The original claim asserts that a raising handler is
caught at the dispatch boundary and the rest of the snapshot still
runs; the dispatch loops of event_command/event_chanmsg contain no
exception handling, so the exception propagates out of the dispatch
call and the plugs after the offender in the snapshot are never
invoked.  Amended accordingly. -/
theorem claim3_handler_fault_propagates (h : Handler) (a0 : String)
    (rest : List String) (s : St) (p : PlugId) (ps : List PlugId) (e : Err)
    (hl : alGet a0 s.cmdHooks = some (p :: ps))
    (he : (h p s).2 = some e) :
    (event_command h (a0 :: rest) s).log = [(p, a0 :: rest)] ∧
    (event_command h (a0 :: rest) s).err = some e := by
  rw [event_command_entry h rest hl]
  exact runSnap_head_err (a0 :: rest) ps he

/-- C3 counterexample: plugs A (instance 0) and B (instance 1) both
subscribe to command x; the handler of instance 0 raises.  Instance 1
is never invoked and the exception escapes the dispatch call, refuting
both halves of the claim. -/
theorem claim3_cex :
    alGet "x" stTwoCmd.cmdHooks = some [0, 1] ∧
    (event_command hBoom ["x"] stTwoCmd).log = [(0, ["x"])] ∧
    (event_command hBoom ["x"] stTwoCmd).err =
      some (Err.handlerFault 7) := by
  refine ⟨by decide, by decide, by decide⟩

/-- C3 witness: the amended theorem applied to the two-plug fixture. -/
theorem claim3_handler_fault_propagates_wit :
    (event_command hBoom ["x"] stTwoCmd).log = [(0, ["x"])] ∧
    (event_command hBoom ["x"] stTwoCmd).err =
      some (Err.handlerFault 7) :=
  claim3_handler_fault_propagates hBoom "x" [] stTwoCmd 0 [1]
    (Err.handlerFault 7) (by decide) (by decide)

/-- The plugs table of a load: dict assignment of the fresh instance. -/
theorem load_plug_plugs (n : String) (sp : PlugSpec) (s : St) :
    (load_plug n sp s).plugs = alSet n s.nextId s.plugs := by
  have hf := hook_events_frame sp s.nextId
    { s with plugs := alSet n s.nextId s.plugs
             specs := s.specs ++ [(s.nextId, sp)]
             nextId := s.nextId + 1 }
  unfold sameMeta at hf
  exact hf.1

/-- C4 (amended).  The original claim asserts load of an active name
fails with AlreadyLoaded; load_plug performs no such check.  Amended:
load of an already-active name succeeds, overwrites the active-set
entry with the fresh instance, and every hook subscription of the prior
instance survives the load. -/
theorem claim4_load_overwrites (s : St) (n : String) (sp : PlugSpec)
    (p : PlugId) (hp : alGet n s.plugs = some p) :
    alGet n (load_plug n sp s).plugs = some s.nextId ∧
    (∀ sp0, registered p sp0 s → registered p sp0 (load_plug n sp s)) := by
  constructor
  · rw [load_plug_plugs]
    exact alGet_alSet_self n _ _
  · intro sp0 hreg
    have hreg1 : registered p sp0
        { s with plugs := alSet n s.nextId s.plugs
                 specs := s.specs ++ [(s.nextId, sp)]
                 nextId := s.nextId + 1 } := hreg
    exact registered_hook_events sp s.nextId hreg1

/-- C4 counterexample: loading A twice never fails; the second load
replaces the active instance 0 by instance 1 while instance 0 remains
subscribed in the hook tables. -/
theorem claim4_cex :
    alGet "A" stTwice.plugs = some 1 ∧ inHooks 0 stTwice ∧
    0 ∉ activeIds stTwice := by
  refine ⟨by decide, by decide, by decide⟩

/-- C4 witness: the amended theorem applied to a second load of A. -/
theorem claim4_load_overwrites_wit :
    alGet "A" (load_plug "A" spChan stChanA).plugs = some 1 ∧
    registered 0 spChan (load_plug "A" spChan stChanA) := by
  have hreg0 : registered 0 spChan stChanA := by
    refine ⟨?_, ?_, ?_⟩
    · intro e he
      have he2 : e = SEvent.chanmsg := by simpa [spChan] using he
      rw [he2]
      decide
    · intro c hc
      simp [spChan] at hc
    · intro c hc
      simp [spChan] at hc
  have H := claim4_load_overwrites stChanA "A" spChan 0 (by decide)
  exact ⟨H.1, H.2 spChan hreg0⟩

/-- C5: removing an absent name fails with KeyError before any
mutation, so the state is returned unchanged; consequently a second
remove of the same name yields KeyError with the state identical to
the state after the first remove. -/
theorem claim5_remove_notfound (env : Env) (n : String) (s : St) :
    (alGet n s.plugs = none →
      remove_plug env n s = (s, some Err.keyError)) ∧
    (∀ p, alGet n s.plugs = some p → env.cleanupFails p = false →
      remove_plug env n ((remove_plug env n s).1) =
        ((remove_plug env n s).1, some Err.keyError)) := by
  constructor
  · intro h
    exact remove_plug_eq_none h
  · intro p hp hcf
    rw [remove_plug_eq_ok hp hcf]
    apply remove_plug_eq_none
    exact alGet_alDel_self n _

/-- C5 witness: double removal of A from the one-plug fixture. -/
theorem claim5_remove_notfound_wit :
    remove_plug envOk "A" ((remove_plug envOk "A" stChanA).1) =
      ((remove_plug envOk "A" stChanA).1, some Err.keyError) :=
  (claim5_remove_notfound envOk "A" stChanA).2 0 (by decide) (by decide)

/-- Shutdown when no cleanup raises: every active plug is cleaned once
and the factory flag is set; the active plug dictionary is not
cleared. -/
theorem shutdown_ok {env : Env} {s : St}
    (hok : ∀ p ∈ s.plugs.map Prod.snd, env.cleanupFails p = false) :
    shutdown env s =
      ({ s with cleanLog := s.cleanLog ++ s.plugs.map Prod.snd
                shuttingdown := true }, none) := by
  unfold shutdown
  rw [runCleanups_ok _ s hok]

/-- C6 (amended).  The original claim asserts cleanup runs exactly once
per instance on every path; on the shutdown path it runs twice, because
shutdown cleans every active plug and the subsequent connectionLost
iterates the still-uncleared active dictionary and cleans them all
again.  Amended: remove_plug invokes the removed plug's cleanup
exactly once, but request_shutdown followed by the connection closing
appends the whole active set to the cleanup log twice. -/
theorem claim6_cleanup_twice (env : Env) (s : St)
    (hok : ∀ p ∈ s.plugs.map Prod.snd, env.cleanupFails p = false) :
    ((connectionLost env (shutdown env s).1).1).cleanLog =
      s.cleanLog ++ s.plugs.map Prod.snd ++ s.plugs.map Prod.snd ∧
    (∀ n p, alGet n s.plugs = some p →
      ((remove_plug env n s).1).cleanLog = s.cleanLog ++ [p]) := by
  constructor
  · rw [shutdown_ok hok]
    unfold connectionLost
    rw [runCleanups_ok _ _ hok]
  · intro n p hp
    cases hcf : env.cleanupFails p with
    | false =>
      rw [remove_plug_eq_ok hp hcf]
      rfl
    | true =>
      rw [remove_plug_eq_fail hp hcf]

/-- C6 counterexample: after loading one plug (instance 0), shutdown
followed by connectionLost records two cleanup invocations for the
same instance. -/
theorem claim6_cex :
    (((connectionLost envOk (shutdown envOk stChanA).1).1).cleanLog).count 0
      = 2 := by
  decide

/-- C6 witness: the amended theorem applied to the one-plug fixture. -/
theorem claim6_cleanup_twice_wit :
    ((connectionLost envOk (shutdown envOk stChanA).1).1).cleanLog
      = [0, 0] ∧
    ((remove_plug envOk "A" stChanA).1).cleanLog = [0] := by
  have H := claim6_cleanup_twice envOk stChanA (by decide)
  refine ⟨?_, ?_⟩
  · rw [H.1]
    decide
  · rw [H.2 "A" 0 (by decide)]
    decide

/-- C7 (amended).  The original claim asserts a cleanup failure during
removal is logged, not propagated, and the removal still completes;
remove_plug calls plug.cleanup() bare, so the exception propagates and
the removal is aborted: the plug stays in the active set and in every
hook table.  Amended accordingly. -/
theorem claim7_cleanup_failure_aborts (env : Env) (n : String) (s : St)
    (p : PlugId) (hp : alGet n s.plugs = some p)
    (hcf : env.cleanupFails p = true) :
    (remove_plug env n s).2 = some Err.cleanupError ∧
    ((remove_plug env n s).1).plugs = s.plugs ∧
    ((remove_plug env n s).1).cmdHooks = s.cmdHooks ∧
    ((remove_plug env n s).1).rawHooks = s.rawHooks ∧
    ((remove_plug env n s).1).sHooks = s.sHooks ∧
    ((remove_plug env n s).1).cleanLog = s.cleanLog ++ [p] := by
  rw [remove_plug_eq_fail hp hcf]
  exact ⟨rfl, rfl, rfl, rfl, rfl, rfl⟩

/-- C7 counterexample: with a raising cleanup, remove_plug propagates
the exception and plug A (instance 0) is still active and still
subscribed afterwards, refuting "logged, not propagated" and "the
removal still completes". -/
theorem claim7_cex :
    (remove_plug envBad "A" stChanA).2 = some Err.cleanupError ∧
    alGet "A" ((remove_plug envBad "A" stChanA).1).plugs = some 0 ∧
    inHooks 0 ((remove_plug envBad "A" stChanA).1) := by
  refine ⟨by decide, by decide, by decide⟩

/-- C7 witness: the amended theorem at the one-plug fixture with a
failing cleanup. -/
theorem claim7_cleanup_failure_aborts_wit :
    (remove_plug envBad "A" stChanA).2 = some Err.cleanupError ∧
    ((remove_plug envBad "A" stChanA).1).plugs = stChanA.plugs ∧
    ((remove_plug envBad "A" stChanA).1).cmdHooks = stChanA.cmdHooks ∧
    ((remove_plug envBad "A" stChanA).1).rawHooks = stChanA.rawHooks ∧
    ((remove_plug envBad "A" stChanA).1).sHooks = stChanA.sHooks ∧
    ((remove_plug envBad "A" stChanA).1).cleanLog =
      stChanA.cleanLog ++ [0] :=
  claim7_cleanup_failure_aborts envBad "A" stChanA 0 (by decide) (by decide)

theorem SimpleHooks.upd_pyAdd_idem (h : SimpleHooks) (e : SEvent)
    (p : PlugId) :
    (h.upd e (pyAdd p)).upd e (pyAdd p) = h.upd e (pyAdd p) := by
  cases e <;> simp [SimpleHooks.upd, pyAdd_idem]

/-- C8 (amended).  All three registration operations are idempotent
set-insertions, but only add_callback returns whether the key is
recognized and rejects unknown keys untouched; add_command and add_raw
return nothing and accept any key, creating its entry on first use. -/
theorem claim8_registration_ops :
    (∀ (t : Nat) (p : PlugId) (s : St),
      add_callback (.other t) p s = (false, s)) ∧
    (∀ (e : SEvent) (p : PlugId) (s : St),
      (add_callback (.simple e) p s).1 = true ∧
      p ∈ ((add_callback (.simple e) p s).2).sHooks.get e ∧
      (add_callback (.simple e) p ((add_callback (.simple e) p s).2)).2 =
        (add_callback (.simple e) p s).2) ∧
    (∀ (c : String) (p : PlugId) (s : St),
      (∃ l, alGet c (add_command c p s).cmdHooks = some l ∧ p ∈ l) ∧
      add_command c p (add_command c p s) = add_command c p s) ∧
    (∀ (c : String) (p : PlugId) (s : St),
      (∃ l, alGet c (add_raw c p s).rawHooks = some l ∧ p ∈ l) ∧
      add_raw c p (add_raw c p s) = add_raw c p s) := by
  refine ⟨fun t p s => rfl, ?_, ?_, ?_⟩
  · intro e p s
    refine ⟨rfl, ?_, ?_⟩
    · rw [add_callback_simple_sHooks, SimpleHooks.get_upd, if_pos rfl]
      exact pyAdd_mem_self p _
    · show ({ s with sHooks := (s.sHooks.upd e (pyAdd p)).upd e (pyAdd p) }
          : St) = { s with sHooks := s.sHooks.upd e (pyAdd p) }
      rw [SimpleHooks.upd_pyAdd_idem]
  · intro c p s
    refine ⟨?_, ?_⟩
    · rw [add_command_cmdHooks]
      exact alBump_get_self c p s.cmdHooks
    · show ({ s with cmdHooks := alBump c p (alBump c p s.cmdHooks) }
          : St) = { s with cmdHooks := alBump c p s.cmdHooks }
      rw [alBump_idem]
  · intro c p s
    refine ⟨?_, ?_⟩
    · rw [add_raw_rawHooks]
      exact alBump_get_self c p s.rawHooks
    · show ({ s with rawHooks := alBump c p (alBump c p s.rawHooks) }
          : St) = { s with rawHooks := alBump c p s.rawHooks }
      rw [alBump_idem]

/-- C8 counterexample: add_command accepts the unknown command key
without signalling anything: the key was absent and afterwards the
plug is registered under it, refuting "rejecting unknown keys rather
than silently accepting them" for the command registration. -/
theorem claim8_cex :
    alGet "zzz" initSt.cmdHooks = none ∧
    alGet "zzz" ((add_command "zzz" 7 initSt).cmdHooks) = some [7] := by
  refine ⟨by decide, by decide⟩

/-- C9: with exactly plug A (one instance) registered for the ping
command, dispatching argv starting with ping invokes that instance
exactly once with the full argv; after remove_plug removes it, the
same dispatch invokes nothing and raises nothing; a command key that
was never registered dispatches to nothing with no error. -/
theorem claim9_ping_scenario (h h2 : Handler) (env : Env) (s : St)
    (a : PlugId) (n : String)
    (hping : alGet "ping" s.cmdHooks = some [a])
    (hact : alGet n s.plugs = some a)
    (hcf : env.cleanupFails a = false) :
    (event_command h ["ping"] s).log = [(a, ["ping"])] ∧
    (event_command h2 ["ping"] ((remove_plug env n s).1)).log = [] ∧
    (event_command h2 ["ping"] ((remove_plug env n s).1)).err = none ∧
    (∀ (c : String) (rest : List String), alGet c s.cmdHooks = none →
      event_command h2 (c :: rest) s = ⟨s, [], none⟩) := by
  have hafter : alGet "ping"
      (((remove_plug env n s).1).cmdHooks) = some [] := by
    rw [remove_plug_eq_ok hact hcf, removedSt_cmdHooks]
    have hmap : alGet "ping"
        ((s.cmdHooks).map (fun e => (e.1, pyDiscard a e.2))) =
          (alGet "ping" s.cmdHooks).map (pyDiscard a) :=
      alGet_map_val (pyDiscard a) s.cmdHooks
    rw [hmap, hping]
    simp [pyDiscard]
  refine ⟨?_, ?_, ?_, ?_⟩
  · rw [event_command_entry h [] hping]
    exact runSnap_single h ["ping"] a s
  · rw [event_command_entry h2 [] hafter]
    rfl
  · rw [event_command_entry h2 [] hafter]
    rfl
  · intro c rest hc
    exact event_command_nokey h2 rest hc

/-- C9 witness: the scenario run on the concrete ping fixture. -/
theorem claim9_ping_scenario_wit :
    (event_command hBoom ["ping"] stPingA).log = [(0, ["ping"])] ∧
    (event_command hBoom ["ping"]
      ((remove_plug envOk "A" stPingA).1)).log = [] ∧
    (event_command hBoom ["ping"]
      ((remove_plug envOk "A" stPingA).1)).err = none := by
  have H := claim9_ping_scenario hBoom hBoom envOk stPingA 0 "A"
    (by decide) (by decide) (by decide)
  exact ⟨H.1, H.2.1, H.2.2.1⟩

/-- C10 (amended).  The original claim asserts argv is never empty
whenever the command event fires; that holds only when the configured
command prefix has length at most one (the shipped default is the
single character bang).  With a longer prefix, a message equal to the
prefix itself passes the length check of privmsg and produces an empty
argv, so event_command would evaluate argv[0] on an empty list.
Amended: when the prefix length is at most one, every fired command
event carries a non-empty argv. -/
theorem claim10_argv_nonempty (cp m : List Char)
    (argv : List (List Char)) (hcp : cp.length ≤ 1)
    (hfire : privmsgCommand cp m = some argv) : argv ≠ [] := by
  unfold privmsgCommand at hfire
  cases hpre : cp.isPrefixOf (pyStrip m) with
  | false => rw [hpre] at hfire; simp at hfire
  | true =>
    rw [hpre] at hfire
    simp only [if_true] at hfire
    by_cases hlen : 1 < (pyStrip m).length
    · rw [if_pos hlen] at hfire
      injection hfire with hfire
      have hrev : (pyStrip m).reverse =
          List.dropWhile pyIsSpace
            ((List.dropWhile pyIsSpace m).reverse) := by
        unfold pyStrip
        rw [List.reverse_reverse]
      cases hc : (pyStrip m).reverse with
      | nil =>
        rw [List.reverse_eq_nil_iff] at hc
        rw [hc] at hlen
        simp at hlen
      | cons c t =>
        rw [hc] at hrev
        have hcs : pyIsSpace c = false := dropWhile_head_false hrev.symm
        have hmsg : pyStrip m = t.reverse ++ [c] := by
          have h2 := congrArg List.reverse hc
          rw [List.reverse_reverse] at h2
          rw [h2, List.reverse_cons]
        have hlt : cp.length ≤ t.reverse.length := by
          have hlm : (pyStrip m).length = t.length + 1 := by
            rw [← List.length_reverse (pyStrip m), hc]
            simp
          have h1t : 1 ≤ t.length := by
            rw [hlm] at hlen
            omega
          rw [List.length_reverse]
          omega
        have hdrop : (pyStrip m).drop cp.length =
            t.reverse.drop cp.length ++ [c] := by
          rw [hmsg]
          exact List.drop_append_of_le_length hlt
        have hcmem : c ∈ (pyStrip m).drop cp.length := by
          rw [hdrop]
          exact List.mem_append_right _ (List.mem_singleton.mpr rfl)
        rw [← hfire]
        exact pySplit_ne_nil hcmem hcs
    · rw [if_neg hlen] at hfire
      cases hfire

/-- C10 counterexample: with the two-character prefix double-bang, the
stripped message equal to the prefix passes the length-greater-than-one
check, fires the command event, and produces an empty argv. -/
theorem claim10_cex :
    privmsgCommand ("!!".toList) ("!!".toList) = some [] := by
  decide

/-- C10 witness: the amended theorem at the default single-character
prefix. -/
theorem claim10_argv_nonempty_wit :
    privmsgCommand ("!".toList) ("!ping arg".toList) =
      some ["ping".toList, "arg".toList] ∧
    ["ping".toList, "arg".toList] ≠ ([] : List (List Char)) := by
  refine ⟨by decide, ?_⟩
  exact claim10_argv_nonempty ("!".toList) ("!ping arg".toList)
    ["ping".toList, "arg".toList] (by decide) (by decide)

end Shirk
